import Mathlib

/-!
# Resonance session core: shallow embedding and verification

This file embeds the session state machine of the Resonance repository
(`src/lib/session.ts` and `src/party/server.ts`) in Lean 4 and proves the
specification's claims about it.

The pure core (`initializeSession`, `sessionReducer`, `getLiveStatement`,
`getUnresolvedStatements`) is exported by `src/lib/session.ts`, which is not
present in the source tree; only its test suite
(`src/lib/liveStatement.test.ts`) and its caller (`src/party/server.ts`)
are. Those core definitions are therefore modelled from the specification,
as flagged in each doc comment. The server layer (`src/party/server.ts`)
is embedded from the source itself.
-/

namespace Resonance

/-- A statement of the session ledger (spec section 3, `Statement`).
`responses` embeds the JS object mapping participant identifiers to boolean
votes as an association list (one entry per key in any state a JS object can
represent). -/
structure Statement where
  text : String
  createdBy : String
  present : List String
  responses : List (String × Bool)
deriving DecidableEq, Repr, Inhabited

/-- The session value (spec section 3, `Session`). `liveStatementIndex` is
`none` or an index into `statements`. -/
structure Session where
  statements : List Statement
  liveStatementIndex : Option Nat
deriving DecidableEq, Repr, Inhabited

/-- Modelled from the spec: `isResolved` of the missing `src/lib/session.ts`
(section 4.1): a statement is resolved iff every identifier in `present` has
an entry in `responses`. -/
def isResolved (st : Statement) : Bool :=
  st.present.all fun u => st.responses.any fun p => p.1 = u

/-- Modelled from the spec: `isAgreed` of the missing `src/lib/session.ts`
(section 4.1): a resolved statement is agreed iff every vote in `responses`
is `true`. -/
def isAgreed (st : Statement) : Bool :=
  isResolved st && st.responses.all fun p => p.2

/-- Modelled from the spec: resolved-count of an author (section 4.2 step 1):
the number of that author's statements that are currently resolved. -/
def resolvedCount (stmts : List Statement) (author : String) : Nat :=
  (stmts.filter fun st => st.createdBy = author && isResolved st).length

/-- Pair each element with its index, starting at `n`. -/
def idxFrom : Nat → List Statement → List (Nat × Statement)
  | _, [] => []
  | n, st :: rest => (n, st) :: idxFrom (n + 1) rest

/-- The unresolved statements together with their original indices, in
creation order. -/
def unresolvedCandidates (stmts : List Statement) : List (Nat × Statement) :=
  (idxFrom 0 stmts).filter fun p => !(isResolved p.2)

/-- Modelled from the spec: the Fairness Selector of the missing
`src/lib/session.ts` (section 4.2): among unresolved statements, pick the one
whose author has the minimum resolved-count, earliest index on ties; `none`
when every statement is resolved. The left fold keeps the current best on
ties, so the earliest candidate attaining the minimum wins. -/
def getLiveStatementIndex (stmts : List Statement) : Option Nat :=
  match unresolvedCandidates stmts with
  | [] => none
  | c :: rest =>
      some (rest.foldl
        (fun best p =>
          if resolvedCount stmts p.2.createdBy < resolvedCount stmts best.2.createdBy
          then p else best) c).1

/-- Modelled from the spec: `getLiveStatement` of the missing
`src/lib/session.ts`: the statement selected by the Fairness Selector, if
any. -/
def getLiveStatement (s : Session) : Option Statement :=
  match getLiveStatementIndex s.statements with
  | none => none
  | some i => s.statements[i]?

/-- Modelled from the spec: `getUnresolvedStatements` of the missing
`src/lib/session.ts`: the statements that are not resolved. -/
def getUnresolvedStatements (s : Session) : List Statement :=
  s.statements.filter fun st => !(isResolved st)

/-- Modelled from the spec: the Consensus Extractor (section 4.4): the
ordered sequence of statements classified agreed, recomputed fresh from
`statements` alone. -/
def getAgreedStatements (s : Session) : List Statement :=
  s.statements.filter isAgreed

/-- Modelled from the spec: `initializeSession` of the missing
`src/lib/session.ts`: a session is created empty, with no live statement. -/
def initSession : Session :=
  { statements := [], liveStatementIndex := none }

/-- The update direction of `UPDATE_UNRESOLVED_STATEMENTS` (section 4.3). -/
inductive UpdateAction where
  | add
  | remove
deriving DecidableEq, Repr

/-- The action space of the state machine (section 4.3). The JS reducer
dispatches on the `type` string of the action, so action kinds other than
the three known ones are part of the input space; `unknown` carries such a
kind. -/
inductive Action where
  | addStatement (text : String) (createdBy : String) (presentUsers : List String)
  | respondToStatement (statementIndex : Nat) (userId : String) (response : Bool)
  | updateUnresolvedStatements (userId : String) (act : UpdateAction)
  | unknown (kind : String)
deriving DecidableEq, Repr

/-- Modelled from the spec: overwrite-or-insert of a vote in the `responses`
mapping (section 4.3, RESPOND_TO_STATEMENT: sets or overwrites
`responses[userId] = response`). On the association-list embedding of the JS
object this replaces the entry holding the key, or appends a new one. -/
def setResponse : List (String × Bool) → String → Bool → List (String × Bool)
  | [], u, v => [(u, v)]
  | p :: rs, u, v => if p.1 = u then (p.1, v) :: rs else p :: setResponse rs u v

/-- The vote recorded for a participant in a `responses` mapping. -/
def lookupResponse (rs : List (String × Bool)) (u : String) : Option Bool :=
  (rs.find? fun p => p.1 = u).map (·.2)

/-- The number of entries a `responses` mapping holds for a participant. -/
def countKey (u : String) : List (String × Bool) → Nat
  | [] => 0
  | p :: rs => (if p.1 = u then 1 else 0) + countKey u rs

/-- Modelled from the spec: the `"add"` branch of
`UPDATE_UNRESOLVED_STATEMENTS` (section 4.3): for every currently unresolved
statement, add `userId` to `present` if not already there; resolved
statements are never touched. Presence additions are in append order. -/
def addUserToUnresolved (u : String) (stmts : List Statement) : List Statement :=
  stmts.map fun st =>
    if isResolved st then st
    else if st.present.contains u then st
    else { st with present := st.present ++ [u] }

/-- The per-statement action of the `"remove"` branch: an unresolved
statement loses `u` from `present` and from `responses`; a resolved one is
untouched. -/
def removeOne (u : String) (st : Statement) : Statement :=
  if isResolved st then st
  else { st with present := st.present.filter fun x => x ≠ u,
                 responses := st.responses.filter fun p => p.1 ≠ u }

/-- Modelled from the spec: the `"remove"` branch of
`UPDATE_UNRESOLVED_STATEMENTS` (section 4.3): for every currently unresolved
statement, remove `userId` from `present` and delete any entry for `userId`
in `responses`; resolved statements are untouched. -/
def removeUserFromUnresolved (u : String) (stmts : List Statement) : List Statement :=
  stmts.map (removeOne u)

/-- Modelled from the spec: `sessionReducer` of the missing
`src/lib/session.ts` (section 4.3): the pure, total transition function.
ADD_STATEMENT appends a statement with `responses = {createdBy: true}`;
RESPOND_TO_STATEMENT requires `statementIndex` to reference an existing
statement and rejects out-of-range indices without mutating state (section 7b);
UPDATE_UNRESOLVED_STATEMENTS adds or removes a user on unresolved statements;
unknown action kinds return the input unchanged. `liveStatementIndex` is
recomputed from the full ledger after every mutation. -/
def sessionReducer (s : Session) : Action → Session
  | .addStatement text createdBy presentUsers =>
      let stmts := s.statements ++
        [{ text := text, createdBy := createdBy, present := presentUsers,
           responses := [(createdBy, true)] }]
      { statements := stmts, liveStatementIndex := getLiveStatementIndex stmts }
  | .respondToStatement statementIndex userId response =>
      match s.statements[statementIndex]? with
      | none => s
      | some st =>
          let stmts := s.statements.set statementIndex
            { st with responses := setResponse st.responses userId response }
          { statements := stmts, liveStatementIndex := getLiveStatementIndex stmts }
  | .updateUnresolvedStatements userId act =>
      let stmts :=
        match act with
        | .add => addUserToUnresolved userId s.statements
        | .remove => removeUserFromUnresolved userId s.statements
      { statements := stmts, liveStatementIndex := getLiveStatementIndex stmts }
  | .unknown _ => s

/-- The sessions reachable from the empty initial session by the state
machine. -/
inductive Reachable : Session → Prop where
  | init : Reachable initSession
  | step (s : Session) (a : Action) : Reachable s → Reachable (sessionReducer s a)

/-- The left fold used by the Fairness Selector: keep the candidate with the
strictly smaller key, the current best on ties. -/
def selBest (key : Nat × Statement → Nat) (c : Nat × Statement)
    (l : List (Nat × Statement)) : Nat × Statement :=
  l.foldl (fun best p => if key p < key best then p else best) c

theorem mem_idxFrom {n i : Nat} {st : Statement} {l : List Statement} :
    (i, st) ∈ idxFrom n l ↔ n ≤ i ∧ l[i - n]? = some st := by
  induction l generalizing n with
  | nil => simp [idxFrom]
  | cons a l ih =>
      simp only [idxFrom, List.mem_cons, Prod.mk.injEq]
      constructor
      · rintro (⟨rfl, rfl⟩ | hmem)
        · simp
        · obtain ⟨h1, h2⟩ := ih.1 hmem
          refine ⟨by omega, ?_⟩
          have he : i - n = (i - (n + 1)) + 1 := by omega
          rw [he, List.getElem?_cons_succ]
          exact h2
      · rintro ⟨h1, h2⟩
        rcases Nat.eq_or_lt_of_le h1 with heq | hlt
        · left
          subst heq
          simp only [Nat.sub_self, List.getElem?_cons_zero, Option.some.injEq] at h2
          exact ⟨rfl, h2.symm⟩
        · right
          refine ih.2 ⟨by omega, ?_⟩
          have he : i - n = (i - (n + 1)) + 1 := by omega
          rw [he, List.getElem?_cons_succ] at h2
          exact h2

theorem pairwise_idxFrom (n : Nat) (l : List Statement) :
    (idxFrom n l).Pairwise fun a b => a.1 < b.1 := by
  induction l generalizing n with
  | nil => exact List.Pairwise.nil
  | cons a l ih =>
      refine List.pairwise_cons.2 ⟨?_, ih (n + 1)⟩
      rintro ⟨j, stj⟩ hb
      have := (mem_idxFrom.1 hb).1
      simpa using Nat.lt_of_lt_of_le (Nat.lt_succ_self n) this

theorem selBest_spec (key : Nat × Statement → Nat) (l : List (Nat × Statement)) :
    ∀ c : Nat × Statement, (c :: l).Pairwise (fun a b => a.1 < b.1) →
      selBest key c l ∈ c :: l ∧
      ∀ x ∈ c :: l, key (selBest key c l) ≤ key x ∧
        (key x ≤ key (selBest key c l) → (selBest key c l).1 ≤ x.1) := by
  induction l with
  | nil =>
      intro c _
      refine ⟨List.mem_cons_self c [], ?_⟩
      intro x hx
      rcases List.mem_cons.1 hx with rfl | hx
      · exact ⟨Nat.le_refl _, fun _ => Nat.le_refl _⟩
      · cases hx
  | cons p l ih =>
      intro c hp
      have hstep : selBest key c (p :: l) = selBest key (if key p < key c then p else c) l := rfl
      by_cases h : key p < key c
      · rw [hstep, if_pos h]
        have hpl : (p :: l).Pairwise fun a b => a.1 < b.1 := hp.of_cons
        obtain ⟨hmem, hbound⟩ := ih p hpl
        refine ⟨List.mem_cons_of_mem c hmem, ?_⟩
        intro x hx
        rcases List.mem_cons.1 hx with rfl | hx
        · have hle : key (selBest key p l) ≤ key p := (hbound p (List.mem_cons_self p l)).1
          refine ⟨Nat.le_trans hle (Nat.le_of_lt h), ?_⟩
          intro hxle
          exact absurd (Nat.lt_of_lt_of_le h hxle) (Nat.not_lt.2 hle)
        · exact hbound x hx
      · rw [hstep, if_neg h]
        have hsub : (c :: l).Sublist (c :: p :: l) :=
          List.Sublist.cons₂ c (List.Sublist.cons p (List.Sublist.refl l))
        have hcl : (c :: l).Pairwise fun a b => a.1 < b.1 := hp.sublist hsub
        obtain ⟨hmem, hbound⟩ := ih c hcl
        have hcp : c.1 < p.1 := (List.pairwise_cons.1 hp).1 p (List.mem_cons_self p l)
        refine ⟨?_, ?_⟩
        · rcases List.mem_cons.1 hmem with hml | hml
          · rw [hml]; exact List.mem_cons_self _ _
          · exact List.mem_cons_of_mem _ (List.mem_cons_of_mem _ hml)
        · intro x hx
          rcases List.mem_cons.1 hx with rfl | hx
          · exact hbound x (List.mem_cons_self _ _)
          rcases List.mem_cons.1 hx with rfl | hx
          · have hcle : key (selBest key c l) ≤ key c := (hbound c (List.mem_cons_self c l)).1
            refine ⟨Nat.le_trans hcle (Nat.le_of_not_lt h), ?_⟩
            intro hxle
            have h1 : key c ≤ key (selBest key c l) :=
              Nat.le_trans (Nat.le_of_not_lt h) hxle
            have h2 : (selBest key c l).1 ≤ c.1 :=
              (hbound c (List.mem_cons_self c l)).2 h1
            exact Nat.le_of_lt (Nat.lt_of_le_of_lt h2 hcp)
          · exact hbound x (List.mem_cons_of_mem c hx)

theorem mem_unresolvedCandidates {stmts : List Statement} {i : Nat} {st : Statement} :
    (i, st) ∈ unresolvedCandidates stmts ↔ stmts[i]? = some st ∧ isResolved st = false := by
  unfold unresolvedCandidates
  rw [List.mem_filter, mem_idxFrom]
  simp

theorem pairwise_unresolvedCandidates (stmts : List Statement) :
    (unresolvedCandidates stmts).Pairwise fun a b => a.1 < b.1 :=
  (pairwise_idxFrom 0 stmts).filter _

theorem getLiveStatementIndex_eq_none_iff (stmts : List Statement) :
    getLiveStatementIndex stmts = none ↔ ∀ st ∈ stmts, isResolved st = true := by
  unfold getLiveStatementIndex
  cases hc : unresolvedCandidates stmts with
  | nil =>
      simp only [true_iff]
      intro st hst
      obtain ⟨j, hj⟩ := List.get_of_mem hst
      have hget : stmts[j.1]? = some st := by
        rw [List.getElem?_eq_getElem j.2]
        exact congrArg some hj
      by_contra hres
      have hmem : (j.1, st) ∈ unresolvedCandidates stmts :=
        mem_unresolvedCandidates.2 ⟨hget, Bool.eq_false_iff.2 hres⟩
      rw [hc] at hmem
      cases hmem
  | cons c rest =>
      simp only [reduceCtorEq, false_iff, not_forall]
      have hmem : c ∈ unresolvedCandidates stmts := by
        rw [hc]; exact List.mem_cons_self c rest
      obtain ⟨hget, hunres⟩ := mem_unresolvedCandidates.1 (by
        simpa using hmem)
      refine ⟨c.2, List.getElem?_mem hget, ?_⟩
      simp [hunres]

theorem getLiveStatementIndex_spec_some {stmts : List Statement} {i : Nat}
    (h : getLiveStatementIndex stmts = some i) :
    ∃ sti, stmts[i]? = some sti ∧ isResolved sti = false ∧
      ∀ j stj, stmts[j]? = some stj → isResolved stj = false →
        resolvedCount stmts sti.createdBy ≤ resolvedCount stmts stj.createdBy ∧
        (resolvedCount stmts stj.createdBy ≤ resolvedCount stmts sti.createdBy → i ≤ j) := by
  unfold getLiveStatementIndex at h
  cases hc : unresolvedCandidates stmts with
  | nil => rw [hc] at h; cases h
  | cons c rest =>
      rw [hc] at h
      simp only [Option.some.injEq] at h
      set key : Nat × Statement → Nat := fun p => resolvedCount stmts p.2.createdBy with hkey
      have hpw : (c :: rest).Pairwise fun a b => a.1 < b.1 := by
        rw [← hc]; exact pairwise_unresolvedCandidates stmts
      obtain ⟨hmem, hbound⟩ := selBest_spec key rest c hpw
      have hmem' : selBest key c rest ∈ unresolvedCandidates stmts := by
        rw [hc]; exact hmem
      obtain ⟨hget, hunres⟩ := mem_unresolvedCandidates.1 (by
        simpa using hmem')
      refine ⟨(selBest key c rest).2, ?_, hunres, ?_⟩
      · rw [← h]; exact hget
      · intro j stj hgetj hunresj
        have hmemj : (j, stj) ∈ c :: rest := by
          rw [← hc]; exact mem_unresolvedCandidates.2 ⟨hgetj, hunresj⟩
        obtain ⟨h1, h2⟩ := hbound (j, stj) hmemj
        exact ⟨h1, fun hle => by rw [← h]; exact h2 hle⟩

/-- A statement is unresolved exactly when some identifier in its `present`
set has no entry in `responses`. -/
theorem isResolved_eq_false_iff (st : Statement) :
    isResolved st = false ↔ ∃ u ∈ st.present, ∀ p ∈ st.responses, p.1 ≠ u := by
  rw [Bool.eq_false_iff]
  simp only [ne_eq, isResolved, List.all_eq_true, List.any_eq_true, decide_eq_true_eq]
  push_neg
  exact Iff.rfl

/-- The demonstration session of the repository's own test scenario
(`src/lib/liveStatement.test.ts`, fairness tests): three statements are
added, two by `user_1` and one by `user_2`, then the first is fully
resolved. -/
def demoSession : Session :=
  sessionReducer
    (sessionReducer
      (sessionReducer
        (sessionReducer
          (sessionReducer
            (sessionReducer initSession
              (.addStatement "Statement by user_1" "user_1" ["user_1", "user_2", "user_3"]))
            (.addStatement "Statement by user_2" "user_2" ["user_1", "user_2", "user_3"]))
          (.addStatement "Second statement by user_1" "user_1" ["user_1", "user_2", "user_3"]))
        (.respondToStatement 0 "user_1" true))
      (.respondToStatement 0 "user_2" true))
    (.respondToStatement 0 "user_3" false)

/-- The statement at index 1 of `demoSession`. -/
def demoSt1 : Statement :=
  { text := "Statement by user_2", createdBy := "user_2",
    present := ["user_1", "user_2", "user_3"], responses := [("user_2", true)] }

/-- The statement at index 2 of `demoSession`. -/
def demoSt2 : Statement :=
  { text := "Second statement by user_1", createdBy := "user_1",
    present := ["user_1", "user_2", "user_3"], responses := [("user_1", true)] }

/-- C1: for every session with at least one unresolved statement, the
Fairness Selector picks the unresolved statement whose author has the
minimum count of currently resolved statements, and among candidates with
that minimum count the one with the smallest original index; if no
unresolved statement exists the live selection is `none`. -/
theorem fairness_selector_correct (stmts : List Statement) :
    (getLiveStatementIndex stmts = none ↔ ∀ st ∈ stmts, isResolved st = true) ∧
    ∀ i, getLiveStatementIndex stmts = some i →
      ∃ sti, stmts[i]? = some sti ∧ isResolved sti = false ∧
        ∀ j stj, stmts[j]? = some stj → isResolved stj = false →
          resolvedCount stmts sti.createdBy ≤ resolvedCount stmts stj.createdBy ∧
          (resolvedCount stmts stj.createdBy ≤ resolvedCount stmts sti.createdBy → i ≤ j) :=
  ⟨getLiveStatementIndex_eq_none_iff stmts, fun _ h => getLiveStatementIndex_spec_some h⟩

/-- Witness for C1 on the repository's own fairness test scenario: after
`user_1` has one resolved statement and `user_2` none, the selector picks
index 1 (the statement by `user_2`), which is unresolved and whose author's
resolved-count is at most that of the author of the later candidate at
index 2. -/
theorem fairness_selector_correct_witness :
    getLiveStatementIndex demoSession.statements = some 1 ∧
    isResolved demoSt1 = false ∧
    resolvedCount demoSession.statements demoSt1.createdBy ≤
      resolvedCount demoSession.statements demoSt2.createdBy := by
  have hlive : getLiveStatementIndex demoSession.statements = some 1 := by rfl
  obtain ⟨sti, hget, hunres, hmin⟩ :=
    (fairness_selector_correct demoSession.statements).2 1 hlive
  have he : demoSession.statements[1]? = some demoSt1 := by rfl
  rw [he] at hget
  injection hget with hst
  subst hst
  refine ⟨hlive, hunres, ?_⟩
  exact (hmin 2 demoSt2 (by rfl) (by rfl)).1

/-- C2: for every session reachable by any sequence of `sessionReducer`
actions from the initial empty session, `liveStatementIndex` equals the
Fairness Selector's recomputation from the current ledger, and whenever it
is non-`none` it references an existing statement that is unresolved: some
identifier in its `present` set has no entry in `responses`. -/
theorem liveIndex_references_unresolved (s : Session) (h : Reachable s) :
    s.liveStatementIndex = getLiveStatementIndex s.statements ∧
    ∀ i, s.liveStatementIndex = some i →
      ∃ st, s.statements[i]? = some st ∧ isResolved st = false ∧
        ∃ u ∈ st.present, ∀ p ∈ st.responses, p.1 ≠ u := by
  have hinv : s.liveStatementIndex = getLiveStatementIndex s.statements := by
    induction h with
    | init => rfl
    | step s a _ ih =>
        cases a with
        | addStatement t c ps => rfl
        | respondToStatement i u v =>
            cases hg : s.statements[i]? with
            | none => simpa [sessionReducer, hg] using ih
            | some st => simp [sessionReducer, hg]
        | updateUnresolvedStatements u act => cases act <;> rfl
        | unknown k => simpa [sessionReducer] using ih
  refine ⟨hinv, ?_⟩
  intro i hi
  rw [hinv] at hi
  obtain ⟨st, hget, hunres, _⟩ := getLiveStatementIndex_spec_some hi
  exact ⟨st, hget, hunres, (isResolved_eq_false_iff st).1 hunres⟩

/-- Witness for C2 at the reachable `demoSession`: its stored live index is
the selector's recomputation, and it references the unresolved statement at
index 1. -/
theorem liveIndex_references_unresolved_witness :
    demoSession.liveStatementIndex = getLiveStatementIndex demoSession.statements ∧
    demoSession.liveStatementIndex = some 1 ∧
    demoSession.statements[1]? = some demoSt1 ∧ isResolved demoSt1 = false := by
  have hreach : Reachable demoSession :=
    .step _ _ (.step _ _ (.step _ _ (.step _ _ (.step _ _ (.step _ _ .init)))))
  obtain ⟨hinv, hsome⟩ := liveIndex_references_unresolved demoSession hreach
  obtain ⟨st, hget, hunres, _⟩ := hsome 1 (by rfl)
  have he : demoSession.statements[1]? = some demoSt1 := by rfl
  rw [he] at hget
  injection hget with hst
  subst hst
  exact ⟨hinv, by rfl, he, hunres⟩

/-- C3: for every session and every ADD_STATEMENT action with non-empty
text, the statement appended by `sessionReducer` already has the author's
`true` vote in `responses` upon creation: no separate RESPOND_TO_STATEMENT
action is needed. -/
theorem addStatement_self_agreement (s : Session) (text createdBy : String)
    (presentUsers : List String) (htext : text ≠ "") :
    (sessionReducer s (.addStatement text createdBy presentUsers)).statements.length
      = s.statements.length + 1 ∧
    ∀ st, (sessionReducer s
          (.addStatement text createdBy presentUsers)).statements[s.statements.length]?
        = some st →
      lookupResponse st.responses createdBy = some true := by
  refine ⟨by simp [sessionReducer], ?_⟩
  intro st hst
  simp only [sessionReducer] at hst
  rw [List.getElem?_concat_length] at hst
  injection hst with h
  subst h
  simp [lookupResponse, List.find?]

/-- The statement created by the witness ADD_STATEMENT below. -/
def demoAdded : Statement :=
  { text := "X", createdBy := "A", present := ["A", "B"], responses := [("A", true)] }

/-- Witness for C3: adding "X" by "A" to the empty session yields one
statement whose `responses` holds the author's automatic `true` vote. -/
theorem addStatement_self_agreement_witness :
    ("X" : String) ≠ "" ∧
    (sessionReducer initSession (.addStatement "X" "A" ["A", "B"])).statements.length
      = initSession.statements.length + 1 ∧
    lookupResponse demoAdded.responses "A" = some true := by
  have h := addStatement_self_agreement initSession "X" "A" ["A", "B"] (by decide)
  exact ⟨by decide, h.1, h.2 demoAdded (by rfl)⟩

/-- C4: a RESPOND_TO_STATEMENT action whose index does not reference an
existing statement is rejected: the resulting session equals the input
session, with no statement, response, or live index changed. -/
theorem vote_out_of_range_rejected (s : Session) (i : Nat) (u : String) (v : Bool)
    (h : s.statements.length ≤ i) :
    sessionReducer s (.respondToStatement i u v) = s := by
  have hg : s.statements[i]? = none := List.getElem?_eq_none h
  simp [sessionReducer, hg]

/-- Witness for C4: a vote on index 3 of the three-statement `demoSession`
is rejected and the session is returned unchanged. -/
theorem vote_out_of_range_rejected_witness :
    demoSession.statements.length ≤ 3 ∧
    sessionReducer demoSession (.respondToStatement 3 "user_1" true) = demoSession :=
  ⟨by decide, vote_out_of_range_rejected demoSession 3 "user_1" true (by decide)⟩

/-- C7: for every action whose kind is none of the three known ones,
`sessionReducer` returns the input session unchanged; the transition
function is total by construction. -/
theorem unknown_action_is_noop (s : Session) (kind : String) :
    sessionReducer s (.unknown kind) = s := rfl

/-- A statement whose `present` set has been emptied by departures, for the
C8 witness. -/
def emptiedStatement : Statement :=
  { text := "X", createdBy := "A", present := [], responses := [] }

/-- A session holding `emptiedStatement`, for the C8 witness. -/
def emptiedSession : Session :=
  { statements := [emptiedStatement],
    liveStatementIndex := getLiveStatementIndex [emptiedStatement] }

/-- C8: a statement whose `present` set is empty is trivially resolved and
trivially agreed (vacuous truth over an empty set of required voters, with
the data-model invariant that `responses` keys are a subset of `present`),
so it appears in the Consensus Extractor output. -/
theorem empty_present_resolved_agreed (s : Session) (st : Statement)
    (hp : st.present = []) (hsub : ∀ p ∈ st.responses, p.1 ∈ st.present)
    (hm : st ∈ s.statements) :
    isResolved st = true ∧ isAgreed st = true ∧ st ∈ getAgreedStatements s := by
  have hr : st.responses = [] := by
    rw [hp] at hsub
    exact List.eq_nil_iff_forall_not_mem.2 fun p hp' => by simpa using hsub p hp'
  have h1 : isResolved st = true := by simp [isResolved, hp]
  have h2 : isAgreed st = true := by simp [isAgreed, h1, hr]
  exact ⟨h1, h2, List.mem_filter.2 ⟨hm, h2⟩⟩

/-- Witness for C8: the empty-`present` statement is resolved, agreed, and
extracted. -/
theorem empty_present_resolved_agreed_witness :
    emptiedStatement.present = [] ∧
    isResolved emptiedStatement = true ∧ isAgreed emptiedStatement = true ∧
    emptiedStatement ∈ getAgreedStatements emptiedSession := by
  have h := empty_present_resolved_agreed emptiedSession emptiedStatement rfl
    (by intro p hp; cases hp) (List.mem_cons_self _ _)
  exact ⟨rfl, h.1, h.2.1, h.2.2⟩

/-- The observable effect of `handleVoteResponse` in `src/party/server.ts`:
what is written to room storage and which session snapshots are broadcast. -/
structure VoteEffect where
  storage : Option Session
  broadcasts : List Session
deriving DecidableEq, Repr

/-- Embedded from `src/party/server.ts`, `handleVoteResponse`: read the
stored session; if none is stored, return early (no write, no broadcast);
otherwise apply the vote through the reducer, store the result, and
broadcast it. -/
def handleVoteResponse (stored : Option Session) (statementIndex : Nat)
    (userId : String) (response : Bool) : VoteEffect :=
  match stored with
  | none => { storage := none, broadcasts := [] }
  | some session =>
      let updated := sessionReducer session
        (.respondToStatement statementIndex userId response)
      { storage := some updated, broadcasts := [updated] }

/-- C10: a vote_response message received when no session is stored for the
room is silently dropped: `handleVoteResponse` returns early, creates no
session, writes nothing to storage, and broadcasts nothing. -/
theorem vote_without_session_dropped (statementIndex : Nat) (userId : String)
    (response : Bool) :
    handleVoteResponse none statementIndex userId response
      = { storage := none, broadcasts := [] } := rfl

theorem filter_idem {α : Type} (p : α → Bool) (l : List α) :
    (l.filter p).filter p = l.filter p :=
  List.filter_eq_self.2 fun _ ha => List.of_mem_filter ha

theorem removeOne_idem (u : String) (st : Statement) :
    removeOne u (removeOne u st) = removeOne u st := by
  by_cases h : isResolved st = true
  · have e : removeOne u st = st := by rw [removeOne, if_pos h]
    rw [e, e]
  · have e : removeOne u st
        = { st with present := st.present.filter (fun x => x ≠ u)
                    responses := st.responses.filter (fun p => p.1 ≠ u) } := by
      rw [removeOne, if_neg h]
    rw [e]
    by_cases h1 : isResolved { st with present := st.present.filter (fun x => x ≠ u)
                                       responses := st.responses.filter (fun p => p.1 ≠ u) } = true
    · rw [removeOne, if_pos h1]
    · rw [removeOne, if_neg h1]
      show ({ st with
              present := (st.present.filter (fun x => x ≠ u)).filter (fun x => x ≠ u)
              responses :=
                (st.responses.filter (fun p => p.1 ≠ u)).filter (fun p => p.1 ≠ u) }
        : Statement) = _
      rw [filter_idem, filter_idem]

theorem removeUserFromUnresolved_idem (u : String) (stmts : List Statement) :
    removeUserFromUnresolved u (removeUserFromUnresolved u stmts)
      = removeUserFromUnresolved u stmts := by
  unfold removeUserFromUnresolved
  rw [List.map_map]
  exact List.map_congr_left fun st _ => removeOne_idem u st

/-- C5: applying UPDATE_UNRESOLVED_STATEMENTS("remove", u) twice in a row
yields a session structurally equal to applying it once; and whenever the
removal would change no statement and the stored live index is already the
selector's recomputation, the action returns a session equal to its
input. -/
theorem remove_idempotent (s : Session) (u : String) :
    sessionReducer (sessionReducer s (.updateUnresolvedStatements u .remove))
        (.updateUnresolvedStatements u .remove)
      = sessionReducer s (.updateUnresolvedStatements u .remove) ∧
    (removeUserFromUnresolved u s.statements = s.statements →
      s.liveStatementIndex = getLiveStatementIndex s.statements →
      sessionReducer s (.updateUnresolvedStatements u .remove) = s) := by
  constructor
  · simp only [sessionReducer]
    rw [removeUserFromUnresolved_idem]
  · intro h1 h2
    simp only [sessionReducer]
    rw [h1, ← h2]

/-- Witness for C5: removing the never-present `user_4` from `demoSession`
changes nothing, twice equals once, and the no-op returns the input
session. -/
theorem remove_idempotent_witness :
    removeUserFromUnresolved "user_4" demoSession.statements = demoSession.statements ∧
    demoSession.liveStatementIndex = getLiveStatementIndex demoSession.statements ∧
    sessionReducer
        (sessionReducer demoSession (.updateUnresolvedStatements "user_4" .remove))
        (.updateUnresolvedStatements "user_4" .remove)
      = sessionReducer demoSession (.updateUnresolvedStatements "user_4" .remove) ∧
    sessionReducer demoSession (.updateUnresolvedStatements "user_4" .remove)
      = demoSession := by
  have h := remove_idempotent demoSession "user_4"
  have h1 : removeUserFromUnresolved "user_4" demoSession.statements
      = demoSession.statements := by rfl
  exact ⟨h1, rfl, h.1, h.2 h1 rfl⟩

theorem countKey_setResponse (rs : List (String × Bool)) (u : String) (v : Bool) :
    countKey u (setResponse rs u v) = max 1 (countKey u rs) := by
  induction rs with
  | nil => simp [setResponse, countKey]
  | cons p rs ih =>
      by_cases h : p.1 = u
      · rw [setResponse, if_pos h]
        simp only [countKey, h, eq_self_iff_true, if_true]
        omega
      · rw [setResponse, if_neg h]
        simp only [countKey, h, if_false]
        rw [ih]
        omega

theorem countKey_setResponse_eq_one {rs : List (String × Bool)} {u : String}
    (v : Bool) (h : countKey u rs ≤ 1) :
    countKey u (setResponse rs u v) = 1 := by
  rw [countKey_setResponse]
  omega

theorem lookupResponse_setResponse (rs : List (String × Bool)) (u : String) (v : Bool) :
    lookupResponse (setResponse rs u v) u = some v := by
  induction rs with
  | nil =>
      show lookupResponse [(u, v)] u = some v
      unfold lookupResponse
      rw [List.find?_cons_of_pos _ (by simp)]
      rfl
  | cons p rs ih =>
      by_cases h : p.1 = u
      · rw [setResponse, if_pos h]
        unfold lookupResponse
        rw [List.find?_cons_of_pos _ (by simp [h])]
        rfl
      · rw [setResponse, if_neg h]
        unfold lookupResponse at ih ⊢
        rw [List.find?_cons_of_neg _ (by simp [h])]
        exact ih

theorem respond_reduces (s : Session) (i : Nat) (u : String) (v : Bool)
    (st : Statement) (hg : s.statements[i]? = some st) :
    sessionReducer s (.respondToStatement i u v)
      = { statements :=
            s.statements.set i { st with responses := setResponse st.responses u v }
          liveStatementIndex := getLiveStatementIndex
            (s.statements.set i { st with responses := setResponse st.responses u v }) } := by
  simp only [sessionReducer, hg]

/-- C6: re-voting overwrites: for every session, valid statement index `i`,
user `u`, and votes `v1` then `v2`, applying RESPOND_TO_STATEMENT twice for
`(i, u)` leaves exactly one response recorded for `u` on statement `i`,
equal to `v2` — given that statement `i`'s `responses` association list
embeds a mapping (at most one entry per key, as every JS object state
does). -/
theorem revote_overwrites (s : Session) (i : Nat) (u : String) (v1 v2 : Bool)
    (hi : i < s.statements.length)
    (hone : countKey u (s.statements.get ⟨i, hi⟩).responses ≤ 1) :
    ∀ st, (sessionReducer (sessionReducer s (.respondToStatement i u v1))
          (.respondToStatement i u v2)).statements[i]? = some st →
      countKey u st.responses = 1 ∧ lookupResponse st.responses u = some v2 := by
  intro st hst
  have hg0 : s.statements[i]? = some (s.statements.get ⟨i, hi⟩) := by
    rw [List.getElem?_eq_getElem hi]
    rfl
  have hi1 : i < (s.statements.set i
      { s.statements.get ⟨i, hi⟩ with
        responses := setResponse (s.statements.get ⟨i, hi⟩).responses u v1 }).length := by
    rw [List.length_set]
    exact hi
  have hg1 : (s.statements.set i
        { s.statements.get ⟨i, hi⟩ with
          responses := setResponse (s.statements.get ⟨i, hi⟩).responses u v1 })[i]?
      = some { s.statements.get ⟨i, hi⟩ with
               responses := setResponse (s.statements.get ⟨i, hi⟩).responses u v1 } :=
    List.getElem?_set_eq_of_lt _ hi
  rw [respond_reduces s i u v1 _ hg0] at hst
  rw [respond_reduces _ i u v2 _ hg1] at hst
  rw [List.getElem?_set_eq_of_lt _ hi1] at hst
  injection hst with he
  subst he
  constructor
  · exact countKey_setResponse_eq_one v2
      (le_of_eq (countKey_setResponse_eq_one v1 hone))
  · exact lookupResponse_setResponse _ u v2

/-- The statement at index 1 of `demoSession` after `user_3` votes disagree
and then agree on it: exactly one entry for `user_3`, holding the latest
vote. -/
def demoRevoted : Statement :=
  { text := "Statement by user_2", createdBy := "user_2",
    present := ["user_1", "user_2", "user_3"],
    responses := [("user_2", true), ("user_3", true)] }

/-- Witness for C6: on `demoSession`, `user_3` votes `false` then `true` on
statement 1; the result records exactly one response for `user_3`, equal to
the latest vote. -/
theorem revote_overwrites_witness :
    1 < demoSession.statements.length ∧
    countKey "user_3" demoSt1.responses ≤ 1 ∧
    countKey "user_3" demoRevoted.responses = 1 ∧
    lookupResponse demoRevoted.responses "user_3" = some true := by
  have h := revote_overwrites demoSession 1 "user_3" false true (by decide) (by decide)
  obtain ⟨h1, h2⟩ := h demoRevoted (by rfl)
  exact ⟨by decide, by decide, h1, h2⟩

/-- The timer-relevant state of the `Server` class in `src/party/server.ts`:
the stored session (absent until a first connect initializes it), the
`pendingRemovals` map from connection id to the timeout handle most recently
stored for it, the set of `setTimeout` callbacks created and neither cleared
nor yet fired (each carries the connection id it closed over), and a counter
producing fresh timeout handles. -/
structure ServerState where
  session : Option Session
  pending : List (String × Nat)
  scheduled : List (String × Nat)
  nextTimer : Nat
deriving DecidableEq, Repr

/-- The handle stored in the `pendingRemovals` map for an id, if any. -/
def lookupPending (m : List (String × Nat)) (id : String) : Option Nat :=
  (m.find? fun q => q.1 = id).map (·.2)

/-- `Map.set` on the association-list embedding of the `pendingRemovals` JS
map: replace the entry holding the key, or append a new one. -/
def setPending : List (String × Nat) → String → Nat → List (String × Nat)
  | [], id, t => [(id, t)]
  | q :: m, id, t => if q.1 = id then (q.1, t) :: m else q :: setPending m id t

/-- Embedded from `src/party/server.ts`, `onConnect`: if the connection id
is non-empty and a removal is pending for it, `clearTimeout` that handle and
delete the map entry; initialize the session if none is stored; then, if the
id is non-empty and statements exist, add the user to all unresolved
statements through the reducer (the source also skips the storage write when
nothing changed, which leaves the same session value either way). -/
def onConnectStep (s : ServerState) (id : String) : ServerState :=
  let s1 :=
    if id ≠ "" then
      match lookupPending s.pending id with
      | some t =>
          { s with scheduled := s.scheduled.filter fun q => q ≠ (id, t)
                   pending := s.pending.filter fun q => q.1 ≠ id }
      | none => s
    else s
  let s2 :=
    match s1.session with
    | none => { s1 with session := some initSession }
    | some _ => s1
  match s2.session with
  | some sess =>
      if id ≠ "" ∧ 0 < sess.statements.length then
        { s2 with session := some (sessionReducer sess
            (.updateUnresolvedStatements id .add)) }
      else s2
  | none => s2

/-- Embedded from `src/party/server.ts`, `onClose`: for a non-empty
connection id, create a 5-second timeout whose callback will remove the user
and delete the map entry, and store its handle in `pendingRemovals` via
`Map.set`. The source never calls `clearTimeout` here, so any previously
scheduled timeout for the same id stays scheduled. -/
def onCloseStep (s : ServerState) (id : String) : ServerState :=
  if id = "" then s
  else
    { s with scheduled := s.scheduled ++ [(id, s.nextTimer)]
             pending := setPending s.pending id s.nextTimer
             nextTimer := s.nextTimer + 1 }

/-- Embedded from `src/party/server.ts`: the grace window of a still
scheduled (never cleared) timeout elapses and its callback runs:
`removeUserFromStatements` applies the remove action through the reducer
(returning early when no session is stored), then the `pendingRemovals`
entry for the id is deleted. A timeout that was cleared or already fired
cannot run. -/
def fireStep (s : ServerState) (id : String) (t : Nat) : ServerState :=
  if (id, t) ∈ s.scheduled then
    { s with scheduled := s.scheduled.filter fun q => q ≠ (id, t)
             session := s.session.map fun sess =>
               sessionReducer sess (.updateUnresolvedStatements id .remove)
             pending := s.pending.filter fun q => q.1 ≠ id }
  else s

/-- A session with one unresolved statement authored by `"A"`, awaiting a
vote from `"B"`, for the C9 trace. -/
def c9Session : Session :=
  { statements := [{ text := "X", createdBy := "A", present := ["A", "B"],
                     responses := [("A", true)] }],
    liveStatementIndex :=
      getLiveStatementIndex [{ text := "X", createdBy := "A", present := ["A", "B"],
                               responses := [("A", true)] }] }

/-- The server holding `c9Session`, with no pending removals, at the start
of the C9 trace. -/
def c9Start : ServerState :=
  { session := some c9Session, pending := [], scheduled := [], nextTimer := 0 }

/-- The server after the C9 trace: user `"A"` disconnects twice (two tabs or
a close-open race bearing the same identifier) and then reconnects within
the grace window. -/
def c9AfterReconnect : ServerState :=
  onConnectStep (onCloseStep (onCloseStep c9Start "A") "A") "A"

/-- C9 fails on the code: after `"A"` disconnects twice and reconnects
within the grace window, the reconnect cancels only the handle recorded in
`pendingRemovals` — the second disconnect replaced the map entry but left
the first timeout scheduled. That stale timer can still fire, and when it
does it removes the reconnected `"A"` from `present` and deletes `"A"`'s
recorded vote, which the claim says a timely reconnect prevents. -/
theorem stacked_timer_fires_after_reconnect :
    (onCloseStep (onCloseStep c9Start "A") "A").scheduled = [("A", 0), ("A", 1)] ∧
    c9AfterReconnect.session = some c9Session ∧
    c9AfterReconnect.pending = [] ∧
    c9AfterReconnect.scheduled = [("A", 0)] ∧
    (fireStep c9AfterReconnect "A" 0).session
      = some { statements := [{ text := "X", createdBy := "A", present := ["B"],
                                responses := [] }],
               liveStatementIndex := some 0 } := by
  refine ⟨by decide, by decide, by decide, by decide, by decide⟩

end Resonance
